import Mathlib

/-!
Verification of the signal-driven backtest engine of this repository
(`flexible_backtest.py`, `btc_trading_with_backtest.py`, `flexible_app.py`).

Prices and balances are embedded as exact rationals (`ℚ`); Python `frozenset`
/ `set` of signal strings is embedded as `Finset String`; the fallible engine
(`raise ValueError`) is embedded in `Except String`.
-/

namespace Backtest

/-- Substring test on `List Char`, the embedding of Python's `needle in hay`.
`listContains needle hay = true` iff `needle` occurs contiguously in `hay`. -/
def listContains (needle : List Char) : List Char → Bool
  | [] => needle.isEmpty
  | c :: rest => needle.isPrefixOf (c :: rest) || listContains needle rest

/-- Python `needle in hay` on strings. -/
def strContains (hay needle : String) : Bool :=
  listContains needle.data hay.data

/-- Python `str.strip()`: drop whitespace from both ends. -/
def pyStrip (s : String) : String :=
  ⟨List.rdropWhile Char.isWhitespace (List.dropWhile Char.isWhitespace s.data)⟩

/-- `normalize_signal` from `flexible_backtest.py` lines 54-63 (the identical
function also appears in `btc_trading_with_backtest.py` lines 30-39): map a raw
signal label to a canonical keyword by substring containment, checked in a
fixed priority order; otherwise return the stripped label. -/
def normalize_signal (sig : String) : String :=
  if strContains sig "tempeture_index" then "tempeture_index"
  else if strContains sig "120_ma" then "120_ma"
  else if strContains sig "ADX" then "ADX"
  else pyStrip sig

/-- `POSITIONS` from `flexible_backtest.py` line 38: the four valid position
type strings (flat / spot / 1x-leveraged / 2x-leveraged). -/
def POSITIONS : List String := ["空仓", "现货", "一倍合约", "两倍合约"]

/-- A policy table value: `{"position": ..., "ratio": ...}` as built by
`flexible_app.py` lines 66-71 (`DEFAULT_POLICY` entries omit the ratio). -/
structure Cfg where
  position : String
  ratio : Option ℚ
deriving DecidableEq

/-- A policy table: a map from frozen signal sets to configurations
(`policy.get(signal_key, None)` is embedded as function application). -/
abbrev Policy := Finset String → Option Cfg

/-- One input row: price (parsed), action type (`进场`/`出场`/other) and the
raw signal label. -/
structure Event where
  price : ℚ
  action : String
  signal : String
deriving DecidableEq

/-- The mutable account state of `run_backtest`: `usd`, `btc`, `position`,
`active_signals`, `last_price`. -/
structure AccState where
  usd : ℚ
  btc : ℚ
  position : String
  signals : Finset String
  last : Option ℚ
deriving DecidableEq

/-- One output row (the five appended columns). -/
structure Snapshot where
  position : String
  btc : ℚ
  total : ℚ
  signalsStr : String
  remark : String
deriving DecidableEq

/-- Initial account state (`flexible_backtest.py` lines 81-85). -/
def initState (cap : ℚ) : AccState := ⟨cap, 0, "空仓", ∅, none⟩

/-- Step 1 of per-event processing (`flexible_backtest.py` lines 95-98, and
verbatim the same in `btc_trading_with_backtest.py` lines 51-54): settle the
floating PnL of a held leveraged position against the last reference price. -/
def settle (position : String) (last : Option ℚ) (price btc : ℚ) : ℚ :=
  match last with
  | some lp =>
    if position = "一倍合约" then btc + (price - lp) / lp * btc
    else if position = "两倍合约" then btc + 2 * (price - lp) / lp * btc
    else btc
  | none => btc

/-- Active-signal set update (`flexible_backtest.py` lines 107-110, verbatim
the same in `btc_trading_with_backtest.py` lines 62-65). -/
def updateSignals (signals : Finset String) (action sig : String) : Finset String :=
  if action = "进场" then insert sig signals
  else if action = "出场" then signals.erase sig
  else signals

/-- Liquidation half of a position switch (`flexible_backtest.py` lines
120-127, verbatim the same in `btc_trading_with_backtest.py` lines 79-87):
convert current holdings to USD at the event price; returns `(usd, btc)`. -/
def liquidate (position : String) (usd btc price : ℚ) : ℚ × ℚ :=
  if position = "现货" then (btc * price, 0)
  else if position = "一倍合约" ∨ position = "两倍合约" then (btc * price, 0)
  else (usd, btc)

/-- Reopening half of a position switch (`flexible_backtest.py` lines
129-137): allocate the whole USD balance at the event price; a leveraged
target also records the opening price; returns `(usd, btc, last_price)`. -/
def reopen (target : String) (usd btc price : ℚ) (last : Option ℚ) : ℚ × ℚ × Option ℚ :=
  if target = "现货" then (0, usd / price, last)
  else if target = "一倍合约" ∨ target = "两倍合约" then (0, usd / price, some price)
  else (usd, btc, last)

/-- Total asset read-out (`flexible_backtest.py` line 142, same formula at
`btc_trading_with_backtest.py` line 111): `usd if usd > 0 else btc * price`. -/
def totalAssets (usd btc price : ℚ) : ℚ :=
  if 0 < usd then usd else btc * price

/-- The settled quantity at an event: step 1 applied to the current state
(`flexible_backtest.py` lines 95-98). -/
def settleBtc (s : AccState) (e : Event) : ℚ :=
  settle s.position s.last e.price s.btc

/-- The `last_price` update of `flexible_backtest.py` lines 100-104 (before
any switch): keep the event price while leveraged, otherwise clear. -/
def preLast (s : AccState) (e : Event) : Option ℚ :=
  if s.position = "一倍合约" ∨ s.position = "两倍合约" then some e.price else none

/-- The active-signal set after the event's enter/exit update. -/
def newSignals (s : AccState) (e : Event) : Finset String :=
  updateSignals s.signals e.action (normalize_signal e.signal)

/-- Target resolution (`flexible_backtest.py` lines 112-114):
`policy.get(signal_key, None)`, defaulting to the current position. -/
def resolveTarget (pol : Policy) (s : AccState) (e : Event) : String :=
  match pol (newSignals s e) with
  | some cfg => cfg.position
  | none => s.position

/-- The liquidate-then-reopen switch (`flexible_backtest.py` lines 119-137)
applied to the settled state. -/
def doSwitch (s : AccState) (e : Event) (target : String) : AccState :=
  let lq := liquidate s.position s.usd (settleBtc s e) e.price
  let ro := reopen target lq.1 lq.2 e.price (preLast s e)
  ⟨ro.1, ro.2.1, target, newSignals s e, ro.2.2⟩

/-- The state after an event with no position switch. -/
def holdState (s : AccState) (e : Event) : AccState :=
  ⟨s.usd, settleBtc s e, s.position, newSignals s e, preLast s e⟩

/-- One iteration of the event loop of `run_backtest`
(`flexible_backtest.py` lines 87-147): settle, update `last_price`, update
the signal set, resolve the target (raising on an invalid resolved target,
line 115-116), switch if needed, and emit the snapshot columns. -/
def stepState (pol : Policy) (s : AccState) (e : Event) : Except String (AccState × Snapshot) :=
  let target := resolveTarget pol s e
  if target ∉ POSITIONS then
    Except.error ("未知仓位类型: " ++ target)
  else
    let st1 : AccState :=
      if target ≠ s.position then doSwitch s e target else holdState s e
    let remark : String := if target ≠ s.position then "换仓→" ++ target else ""
    Except.ok
      (st1,
       ⟨st1.position, st1.btc, totalAssets st1.usd st1.btc e.price,
        String.intercalate "," ((newSignals s e).sort (· ≤ ·)), remark⟩)

/-- The event loop of `run_backtest`, recording the account state and the
emitted snapshot after each event. -/
def runAux (pol : Policy) (s : AccState) : List Event → Except String (List (AccState × Snapshot))
  | [] => Except.ok []
  | e :: es =>
    match stepState pol s e with
    | Except.error msg => Except.error msg
    | Except.ok (s', snap) =>
      match runAux pol s' es with
      | Except.error msg => Except.error msg
      | Except.ok rest => Except.ok ((s', snap) :: rest)

/-- `DEFAULT_POLICY` from `flexible_backtest.py` lines 41-50. -/
def DEFAULT_POLICY : Policy := fun k =>
  if k = (∅ : Finset String) then some ⟨"空仓", none⟩
  else if k = {"tempeture_index"} then some ⟨"现货", none⟩
  else if k = {"120_ma"} then some ⟨"现货", none⟩
  else if k = {"ADX"} then some ⟨"现货", none⟩
  else if k = {"tempeture_index", "120_ma"} then some ⟨"一倍合约", none⟩
  else if k = {"tempeture_index", "ADX"} then some ⟨"一倍合约", none⟩
  else if k = {"120_ma", "ADX"} then some ⟨"一倍合约", none⟩
  else if k = {"tempeture_index", "120_ma", "ADX"} then some ⟨"两倍合约", none⟩
  else none

/-- Count-based target position of `btc_trading_with_backtest.py` lines
70-75: 0 signals → flat, 1 → spot, 2 → 1x-leveraged, otherwise 2x. -/
def posOfCard (n : ℕ) : String :=
  if n = 0 then "空仓"
  else if n = 1 then "现货"
  else if n = 2 then "一倍合约"
  else "两倍合约"

/-- One iteration of the fixed-policy event loop of
`btc_trading_with_backtest.py` (lines 42-113).  The mark-to-market block,
signal update, liquidation block and total-asset formula are verbatim
identical to `flexible_backtest.py` and share the embeddings above; the
parts that differ are embedded inline: the `last_price` update keeps the
old value while flat (line 58), the target is chosen by signal count
(lines 67-75), and the switch branch writes per-branch remarks and resets
`last_price` (lines 90-106). -/
def stepFixed (s : AccState) (e : Event) : AccState × Snapshot :=
  let price := e.price
  let sig := normalize_signal e.signal
  let btc1 := settle s.position s.last price s.btc
  let last1 : Option ℚ := if s.position ≠ "空仓" then some price else s.last
  let sigs1 := updateSignals s.signals e.action sig
  let n := sigs1.card
  let target : String := posOfCard n
  if target ≠ s.position then
    let lq := liquidate s.position s.usd btc1 price
    let ro : ℚ × ℚ × String :=
      if target = "现货" then (0, lq.1 / price, "切换为现货(" ++ toString n ++ " signal)")
      else if target = "一倍合约" then (0, lq.1 / price, "切换为一倍合约")
      else if target = "两倍合约" then (0, lq.1 / price, "切换为两倍合约")
      else (lq.1, lq.2, "全部平仓为空仓")
    let last2 : Option ℚ :=
      if target = "一倍合约" ∨ target = "两倍合约" then some price else none
    let st1 : AccState := ⟨ro.1, ro.2.1, target, sigs1, last2⟩
    (st1,
     ⟨target, st1.btc, totalAssets st1.usd st1.btc price,
      String.intercalate "," (sigs1.sort (· ≤ ·)), ro.2.2⟩)
  else
    let st1 : AccState := ⟨s.usd, btc1, s.position, sigs1, last1⟩
    (st1,
     ⟨s.position, btc1, totalAssets s.usd btc1 price,
      String.intercalate "," (sigs1.sort (· ≤ ·)), ""⟩)

/-- The fixed-policy event loop (`btc_trading_with_backtest.py`), recording
state and snapshot after each event; its initial capital is the literal
`1000` (line 20). -/
def runFixedAux (s : AccState) : List Event → List (AccState × Snapshot)
  | [] => []
  | e :: es =>
    let r := stepFixed s e
    (r.1, r.2) :: runFixedAux r.1 es

/-- The three canonical signals (`SIGNALS` in `flexible_backtest.py` line 37). -/
def canonicalS : Finset String := {"tempeture_index", "120_ma", "ADX"}

/-- A position string is leveraged (either tier). -/
abbrev Leveraged (p : String) : Prop := p = "一倍合约" ∨ p = "两倍合约"

/-- Coupling between a flexible-engine state and a fixed-engine state: equal
balances, position and signals, with equal reference prices whenever the
position is leveraged (the two implementations track `last_price` differently
while not leveraged, where the value is never read). -/
def Coupled (s1 s2 : AccState) : Prop :=
  s1.usd = s2.usd ∧ s1.btc = s2.btc ∧ s1.position = s2.position ∧
  s1.signals = s2.signals ∧ (Leveraged s1.position → s1.last = s2.last)

/-- The well-formedness invariant of a running account: a valid position,
cash-only while flat and asset-only otherwise (all balances non-negative with
exactly one of the two non-zero), and a positive reference price recorded
while leveraged. -/
def Inv (s : AccState) : Prop :=
  s.position ∈ POSITIONS ∧
  (s.position = "空仓" → 0 < s.usd ∧ s.btc = 0) ∧
  (s.position ≠ "空仓" → 0 < s.btc ∧ s.usd = 0) ∧
  (Leveraged s.position → ∃ lp, s.last = some lp ∧ 0 < lp)

/-- Price-path side condition for the invariant: every price is positive and,
while holding a 2x-leveraged position with reference price `lp`, the next
price stays above `lp / 2` (a 2x mark-to-market loss strictly below 100%). -/
def pricesOkB (pol : Policy) : AccState → List Event → Bool
  | _, [] => true
  | s, e :: es =>
    decide (0 < e.price) &&
    (if s.position = "两倍合约" then
      match s.last with
      | some lp => decide (lp / 2 < e.price)
      | none => true
    else true) &&
    (match stepState pol s e with
     | Except.ok r => pricesOkB pol r.1 es
     | Except.error _ => true)

/-- The per-event output columns shared by the two implementations
(position type, asset quantity, total asset value, active signals);
the remark column is excluded. -/
def projCols (x : AccState × Snapshot) : String × ℚ × ℚ × String :=
  (x.2.position, x.2.btc, x.2.total, x.2.signalsStr)

/-- Scenario policy {X → 1x-leveraged}. -/
def polLev1 : Policy := fun k =>
  if k = ({"X"} : Finset String) then some ⟨"一倍合约", none⟩ else none

/-- Scenario policy {X → 2x-leveraged}. -/
def polLev2 : Policy := fun k =>
  if k = ({"X"} : Finset String) then some ⟨"两倍合约", none⟩ else none

/-- Scenario policy {X → spot}. -/
def polSpot : Policy := fun k =>
  if k = ({"X"} : Finset String) then some ⟨"现货", none⟩ else none

/-- A policy whose only entry carries an invalid position string. -/
def polInvalid : Policy := fun k =>
  if k = ({"X"} : Finset String) then some ⟨"三倍合约", none⟩ else none

/-- Scenario policy {X → 1x-leveraged, ∅ → spot}. -/
def polLev1Spot : Policy := fun k =>
  if k = ({"X"} : Finset String) then some ⟨"一倍合约", none⟩
  else if k = (∅ : Finset String) then some ⟨"现货", none⟩ else none

/-- Scenario policy {X → 2x-leveraged, ∅ → flat}. -/
def polLev2Flat : Policy := fun k =>
  if k = ({"X"} : Finset String) then some ⟨"两倍合约", none⟩
  else if k = (∅ : Finset String) then some ⟨"空仓", none⟩ else none

/-- Scenario policy {X → spot} with allocation ratio 1. -/
def polRatioHigh : Policy := fun k =>
  if k = ({"X"} : Finset String) then some ⟨"现货", some 1⟩ else none

/-- Scenario policy {X → spot} with allocation ratio 1/2. -/
def polRatioLow : Policy := fun k =>
  if k = ({"X"} : Finset String) then some ⟨"现货", some (1/2)⟩ else none

/-- Scenario B events: enter X at 100, then a no-action row at 110. -/
def evScenB : List Event := [⟨100, "进场", "X"⟩, ⟨110, "无", ""⟩]

/-- Events: enter X at 100, then a no-action row at 40. -/
def evCrash : List Event := [⟨100, "进场", "X"⟩, ⟨40, "无", ""⟩]

/-- Events: enter X at 100, then exit X at 40. -/
def evCrashExit : List Event := [⟨100, "进场", "X"⟩, ⟨40, "出场", "X"⟩]

/-- Events: enter X at 100, then exit X at 110. -/
def evExitUp : List Event := [⟨100, "进场", "X"⟩, ⟨110, "出场", "X"⟩]

/-- Events: enter X at 100, then no-action rows at 110 and 121. -/
def evThree : List Event := [⟨100, "进场", "X"⟩, ⟨110, "无", ""⟩, ⟨121, "无", ""⟩]

/-- Events: a single row entering signal Y at 100. -/
def evEnterY : List Event := [⟨100, "进场", "Y"⟩]

/-! Helper lemmas -/

/-- When the resolved target is valid, `stepState` succeeds and its result is
the switch state or the hold state according to whether the target differs. -/
theorem stepState_eq (pol : Policy) (s : AccState) (e : Event)
    (h : resolveTarget pol s e ∈ POSITIONS) :
    stepState pol s e = Except.ok
      ((if resolveTarget pol s e ≠ s.position then doSwitch s e (resolveTarget pol s e)
        else holdState s e),
       ⟨(if resolveTarget pol s e ≠ s.position then doSwitch s e (resolveTarget pol s e)
          else holdState s e).position,
        (if resolveTarget pol s e ≠ s.position then doSwitch s e (resolveTarget pol s e)
          else holdState s e).btc,
        totalAssets
          (if resolveTarget pol s e ≠ s.position then doSwitch s e (resolveTarget pol s e)
            else holdState s e).usd
          (if resolveTarget pol s e ≠ s.position then doSwitch s e (resolveTarget pol s e)
            else holdState s e).btc e.price,
        String.intercalate "," ((newSignals s e).sort (· ≤ ·)),
        (if resolveTarget pol s e ≠ s.position then "换仓→" ++ resolveTarget pol s e else "")⟩) := by
  simp only [stepState]
  rw [if_neg (not_not_intro h)]

/-- A successful step has a valid resolved target, and the new state is the
switch state or the hold state. -/
theorem stepState_ok_elim (pol : Policy) (s : AccState) (e : Event)
    (s' : AccState) (snap : Snapshot) (h : stepState pol s e = Except.ok (s', snap)) :
    resolveTarget pol s e ∈ POSITIONS ∧
    s' = (if resolveTarget pol s e ≠ s.position then doSwitch s e (resolveTarget pol s e)
          else holdState s e) := by
  by_cases hmem : resolveTarget pol s e ∈ POSITIONS
  · refine ⟨hmem, ?_⟩
    rw [stepState_eq pol s e hmem] at h
    simp only [Except.ok.injEq, Prod.mk.injEq] at h
    exact h.1.symm
  · exfalso
    simp only [stepState] at h
    rw [if_pos hmem] at h
    exact Except.noConfusion h

/-- `preLast` is set exactly while the pre-event position is leveraged. -/
theorem preLast_isSome (s : AccState) (e : Event) :
    (∃ lp, preLast s e = some lp) ↔ Leveraged s.position := by
  unfold preLast Leveraged
  by_cases h : s.position = "一倍合约" ∨ s.position = "两倍合约" <;> simp [h]

/-- Reopening from an all-cash pair `(u, 0)` with `0 ≤ u` reads back the same
total value at the same price, whatever the target is. -/
theorem total_after_reopen (target : String) (u price : ℚ) (last : Option ℚ)
    (hp : 0 < price) (hu : 0 ≤ u) :
    totalAssets (reopen target u 0 price last).1 (reopen target u 0 price last).2.1 price =
      totalAssets u 0 price := by
  have harith : totalAssets 0 (u / price) price = totalAssets u 0 price := by
    rcases eq_or_lt_of_le hu with h|h
    · rw [← h]
      simp [totalAssets]
    · simp only [totalAssets, lt_irrefl 0, if_neg (lt_irrefl 0), if_pos h]
      exact div_mul_cancel₀ u hp.ne'
  by_cases h1 : target = "现货"
  · simpa [reopen, h1] using harith
  · by_cases h2 : target = "一倍合约" ∨ target = "两倍合约"
    · simpa [reopen, h1, h2] using harith
    · simp [reopen, h1, h2]

/-- The cash read-out of a liquidated holding equals the asset read-out of the
holding itself, at the same price. -/
theorem totalAssets_held (btc price : ℚ) (hb : 0 ≤ btc) (hp : 0 < price) :
    totalAssets (btc * price) 0 price = totalAssets 0 btc price := by
  rcases eq_or_lt_of_le hb with h|h
  · rw [← h]
    simp [totalAssets]
  · have hpos : 0 < btc * price := mul_pos h hp
    simp [totalAssets, hpos, lt_irrefl 0]

theorem mem_flat : ("空仓" : String) ∈ POSITIONS := by decide

theorem mem_spot : ("现货" : String) ∈ POSITIONS := by decide

theorem mem_l1 : ("一倍合约" : String) ∈ POSITIONS := by decide

theorem mem_l2 : ("两倍合约" : String) ∈ POSITIONS := by decide

theorem nlev_flat : ¬ Leveraged "空仓" := by decide

theorem nlev_spot : ¬ Leveraged "现货" := by decide

theorem spot_ne_flat : ("现货" : String) ≠ "空仓" := by decide

theorem l1_ne_flat : ("一倍合约" : String) ≠ "空仓" := by decide

theorem l2_ne_flat : ("两倍合约" : String) ≠ "空仓" := by decide

/-- Reopening a positive all-cash balance into any valid target yields a
well-formed state, whatever stale reference price is carried along. -/
theorem inv_reopen (T : String) (hT : T ∈ POSITIONS) (u1 price : ℚ)
    (sg' : Finset String) (la1 : Option ℚ) (hu1 : 0 < u1) (hp : 0 < price) :
    Inv ⟨(reopen T u1 0 price la1).1, (reopen T u1 0 price la1).2.1, T, sg',
      (reopen T u1 0 price la1).2.2⟩ := by
  have hTs : T = "空仓" ∨ T = "现货" ∨ T = "一倍合约" ∨ T = "两倍合约" := by
    simpa [POSITIONS] using hT
  rcases hTs with rfl|rfl|rfl|rfl
  · exact ⟨mem_flat, fun _ => ⟨hu1, rfl⟩, fun hn => absurd rfl hn,
      fun hlev => absurd hlev nlev_flat⟩
  · exact ⟨mem_spot, fun h0 => absurd h0 spot_ne_flat, fun _ => ⟨div_pos hu1 hp, rfl⟩,
      fun hlev => absurd hlev nlev_spot⟩
  · exact ⟨mem_l1, fun h0 => absurd h0 l1_ne_flat, fun _ => ⟨div_pos hu1 hp, rfl⟩,
      fun _ => ⟨price, rfl, hp⟩⟩
  · exact ⟨mem_l2, fun h0 => absurd h0 l2_ne_flat, fun _ => ⟨div_pos hu1 hp, rfl⟩,
      fun _ => ⟨price, rfl, hp⟩⟩

/-- One successful engine step preserves the account invariant, provided the
event price is positive and, while 2x-leveraged, exceeds half the reference
price. -/
theorem inv_step (pol : Policy) (u b : ℚ) (pos : String) (sg : Finset String)
    (la : Option ℚ) (e : Event) (hs : Inv ⟨u, b, pos, sg, la⟩) (hp : 0 < e.price)
    (h2x : pos = "两倍合约" → ∀ lp, la = some lp → lp / 2 < e.price)
    (s' : AccState) (snap : Snapshot)
    (h : stepState pol ⟨u, b, pos, sg, la⟩ e = Except.ok (s', snap)) :
    Inv s' := by
  obtain ⟨hmem, hval1, hval2, hlastP⟩ := hs
  obtain ⟨hmemT, hs'⟩ := stepState_ok_elim _ _ _ _ _ h
  dsimp only at hs'
  have hposes : pos = "空仓" ∨ pos = "现货" ∨ pos = "一倍合约" ∨ pos = "两倍合约" := by
    simpa [POSITIONS] using hmem
  rcases hposes with rfl|rfl|rfl|rfl
  · obtain ⟨hu, hb⟩ := hval1 rfl
    subst hb
    have hset : settleBtc ⟨u, 0, "空仓", sg, la⟩ e = 0 := by
      cases la <;> simp +decide [settleBtc, settle]
    by_cases hne : resolveTarget pol ⟨u, 0, "空仓", sg, la⟩ e ≠ "空仓"
    · rw [if_pos hne] at hs'
      subst hs'
      simp only [doSwitch]
      rw [hset]
      exact inv_reopen _ hmemT _ _ _ _ hu hp
    · rw [if_neg hne] at hs'
      subst hs'
      exact ⟨mem_flat, fun _ => ⟨hu, hset⟩, fun hn => absurd rfl hn,
        fun hlev => absurd hlev nlev_flat⟩
  · obtain ⟨hb, hu⟩ := hval2 spot_ne_flat
    subst hu
    have hset : settleBtc ⟨0, b, "现货", sg, la⟩ e = b := by
      cases la <;> simp +decide [settleBtc, settle]
    by_cases hne : resolveTarget pol ⟨0, b, "现货", sg, la⟩ e ≠ "现货"
    · rw [if_pos hne] at hs'
      subst hs'
      simp only [doSwitch]
      rw [hset]
      exact inv_reopen _ hmemT _ _ _ _ (mul_pos hb hp) hp
    · rw [if_neg hne] at hs'
      subst hs'
      exact ⟨mem_spot, fun h0 => absurd h0 spot_ne_flat,
        fun _ => ⟨lt_of_lt_of_eq hb hset.symm, rfl⟩,
        fun hlev => absurd hlev nlev_spot⟩
  · obtain ⟨hb, hu⟩ := hval2 l1_ne_flat
    subst hu
    obtain ⟨lp, hla, hlp⟩ := hlastP (Or.inl rfl)
    subst hla
    have hset : settleBtc ⟨0, b, "一倍合约", sg, some lp⟩ e = b * e.price / lp := by
      simp +decide [settleBtc, settle]
      field_simp
      ring
    have hpos1 : 0 < b * e.price / lp := div_pos (mul_pos hb hp) hlp
    by_cases hne : resolveTarget pol ⟨0, b, "一倍合约", sg, some lp⟩ e ≠ "一倍合约"
    · rw [if_pos hne] at hs'
      subst hs'
      simp only [doSwitch]
      rw [hset]
      exact inv_reopen _ hmemT _ _ _ _ (mul_pos hpos1 hp) hp
    · rw [if_neg hne] at hs'
      subst hs'
      exact ⟨mem_l1, fun h0 => absurd h0 l1_ne_flat,
        fun _ => ⟨lt_of_lt_of_eq hpos1 hset.symm, rfl⟩,
        fun _ => ⟨e.price, rfl, hp⟩⟩
  · obtain ⟨hb, hu⟩ := hval2 l2_ne_flat
    subst hu
    obtain ⟨lp, hla, hlp⟩ := hlastP (Or.inr rfl)
    subst hla
    have h2p : lp < 2 * e.price := by
      have := h2x rfl lp rfl
      linarith
    have hset : settleBtc ⟨0, b, "两倍合约", sg, some lp⟩ e =
        b * (2 * e.price - lp) / lp := by
      simp +decide [settleBtc, settle]
      field_simp
      ring
    have hpos2 : 0 < b * (2 * e.price - lp) / lp :=
      div_pos (mul_pos hb (by linarith)) hlp
    by_cases hne : resolveTarget pol ⟨0, b, "两倍合约", sg, some lp⟩ e ≠ "两倍合约"
    · rw [if_pos hne] at hs'
      subst hs'
      simp only [doSwitch]
      rw [hset]
      exact inv_reopen _ hmemT _ _ _ _ (mul_pos hpos2 hp) hp
    · rw [if_neg hne] at hs'
      subst hs'
      exact ⟨mem_l2, fun h0 => absurd h0 l2_ne_flat,
        fun _ => ⟨lt_of_lt_of_eq hpos2 hset.symm, rfl⟩,
        fun _ => ⟨e.price, rfl, hp⟩⟩

/-- The account invariant holds after every event of a successful run whose
price path satisfies `pricesOkB`. -/
theorem inv_run (pol : Policy) :
    ∀ (evs : List Event) (s : AccState), Inv s → pricesOkB pol s evs = true →
      ∀ l, runAux pol s evs = Except.ok l → ∀ x ∈ l, Inv x.1 := by
  intro evs
  induction evs with
  | nil =>
    intro s hs hok l hl x hx
    simp only [runAux, Except.ok.injEq] at hl
    subst hl
    exact absurd hx (List.not_mem_nil x)
  | cons e es ih =>
    intro s hs hok l hl x hx
    cases hstep : stepState pol s e with
    | error msg =>
      simp only [runAux, hstep] at hl
      exact Except.noConfusion hl
    | ok r =>
      obtain ⟨s1, snap1⟩ := r
      simp only [pricesOkB, hstep, Bool.and_eq_true, decide_eq_true_eq] at hok
      obtain ⟨⟨hp, h2xB⟩, hrest⟩ := hok
      simp only [runAux, hstep] at hl
      cases hrun : runAux pol s1 es with
      | error msg =>
        rw [hrun] at hl
        exact Except.noConfusion hl
      | ok rest =>
        rw [hrun] at hl
        simp only [Except.ok.injEq] at hl
        subst hl
        have h2x' : s.position = "两倍合约" → ∀ lp, s.last = some lp →
            lp / 2 < e.price := by
          intro hpos lp hla
          rw [hpos, hla] at h2xB
          simp only [if_pos rfl] at h2xB
          exact of_decide_eq_true h2xB
        have hInv1 : Inv s1 := by
          obtain ⟨uu, bb, pp, gg, ll⟩ := s
          exact inv_step pol uu bb pp gg ll e hs hp h2x' s1 snap1 hstep
        have hrest' : pricesOkB pol s1 es = true := hrest
        rcases List.mem_cons.mp hx with rfl|hx'
        · exact hInv1
        · exact ih s1 hInv1 hrest' rest hrun x hx'

/-- `listContains` decides contiguous-sublist occurrence. -/
theorem listContains_iff (n l : List Char) :
    listContains n l = true ↔ ∃ u v, u ++ n ++ v = l := by
  induction l with
  | nil =>
    simp only [listContains, List.isEmpty_eq_true]
    constructor
    · intro h
      exact ⟨[], [], by simp [h]⟩
    · rintro ⟨u, v, h⟩
      exact (List.append_eq_nil.mp ((List.append_eq_nil.mp h).1)).2
  | cons c t ih =>
    simp only [listContains, Bool.or_eq_true, ih]
    constructor
    · rintro (hpre | ⟨u, v, h⟩)
      · obtain ⟨w, hw⟩ := List.isPrefixOf_iff_prefix.mp hpre
        exact ⟨[], w, by simpa using hw⟩
      · exact ⟨c :: u, v, by rw [List.cons_append, List.cons_append, h]⟩
    · rintro ⟨u, v, h⟩
      cases u with
      | nil =>
        left
        exact List.isPrefixOf_iff_prefix.mpr ⟨v, by simpa using h⟩
      | cons a u' =>
        right
        rw [List.cons_append, List.cons_append] at h
        injection h with h1 h2
        exact ⟨u', v, h2⟩

/-- `strContains hay needle = false` means the needle's characters never occur
contiguously in the haystack. -/
theorem strContains_eq_false_iff (hay needle : String) :
    strContains hay needle = false ↔ ¬ ∃ u v, u ++ needle.data ++ v = hay.data := by
  rw [strContains, ← listContains_iff]
  cases listContains needle.data hay.data <;> simp

/-- The stripped string occurs contiguously inside the original string. -/
theorem pyStrip_decomp (s : String) :
    ∃ u v, u ++ (pyStrip s).data ++ v = s.data := by
  obtain ⟨w1, hw1⟩ : (pyStrip s).data <+:
      List.dropWhile Char.isWhitespace s.data :=
    List.rdropWhile_prefix _ _
  obtain ⟨w2, hw2⟩ : List.dropWhile Char.isWhitespace s.data <:+ s.data :=
    List.dropWhile_suffix _
  exact ⟨w2, w1, by rw [← hw2, ← hw1, List.append_assoc]⟩

/-- Python `strip` is idempotent. -/
theorem pyStrip_idem (s : String) : pyStrip (pyStrip s) = pyStrip s := by
  have h1 : List.dropWhile Char.isWhitespace
      (List.rdropWhile Char.isWhitespace (List.dropWhile Char.isWhitespace s.data)) =
      List.rdropWhile Char.isWhitespace (List.dropWhile Char.isWhitespace s.data) := by
    rw [List.dropWhile_eq_self_iff]
    intro hl
    have hpre := List.rdropWhile_prefix Char.isWhitespace
      (List.dropWhile Char.isWhitespace s.data)
    have hlen : 0 < (List.dropWhile Char.isWhitespace s.data).length :=
      lt_of_lt_of_le hl ( List.IsPrefix.length_le hpre)
    have h0 : (List.rdropWhile Char.isWhitespace
        (List.dropWhile Char.isWhitespace s.data)).get ⟨0, hl⟩ =
        (List.dropWhile Char.isWhitespace s.data).get ⟨0, hlen⟩ := by
      rw [List.get_eq_getElem, List.get_eq_getElem]
      exact List.IsPrefix.getElem hpre hl
    rw [h0]
    exact List.dropWhile_get_zero_not Char.isWhitespace s.data hlen
  unfold pyStrip
  congr 1
  dsimp only
  rw [h1, List.rdropWhile_idempotent]

/-- Substring misses are preserved by stripping. -/
theorem strContains_pyStrip (s c : String) (h : strContains s c = false) :
    strContains (pyStrip s) c = false := by
  rw [strContains_eq_false_iff] at h ⊢
  intro hex
  obtain ⟨u, v, huv⟩ := hex
  obtain ⟨u2, v2, h2⟩ := pyStrip_decomp s
  exact h ⟨u2 ++ u, v ++ v2, by rw [← h2, ← huv]; simp [List.append_assoc]⟩

/-- The count-based target is always a valid position. -/
theorem posOfCard_mem (n : ℕ) : posOfCard n ∈ POSITIONS := by
  unfold posOfCard
  split_ifs <;> decide

/-- Every subset of the three canonical signals is one of the eight explicit
signal sets. -/
theorem subset_three (S : Finset String) (h : S ⊆ canonicalS) :
    S = ∅ ∨ S = {"tempeture_index"} ∨ S = {"120_ma"} ∨ S = {"ADX"} ∨
    S = {"tempeture_index", "120_ma"} ∨ S = {"tempeture_index", "ADX"} ∨
    S = {"120_ma", "ADX"} ∨ S = {"tempeture_index", "120_ma", "ADX"} := by
  have hx : ∀ x ∈ S, x = "tempeture_index" ∨ x = "120_ma" ∨ x = "ADX" := fun x hxm => by
    simpa [canonicalS] using h hxm
  by_cases ht : "tempeture_index" ∈ S <;> by_cases hm : "120_ma" ∈ S <;>
    by_cases ha : "ADX" ∈ S
  · refine Or.inr (Or.inr (Or.inr (Or.inr (Or.inr (Or.inr (Or.inr ?_))))))
    apply Finset.Subset.antisymm h
    intro x hxm
    simp only [canonicalS, Finset.mem_insert, Finset.mem_singleton] at hxm
    rcases hxm with rfl|rfl|rfl <;> assumption
  · refine Or.inr (Or.inr (Or.inr (Or.inr (Or.inl ?_))))
    apply Finset.ext
    intro x
    simp only [Finset.mem_insert, Finset.mem_singleton]
    constructor
    · intro hxm
      rcases hx x hxm with rfl|rfl|rfl
      · exact Or.inl rfl
      · exact Or.inr rfl
      · exact absurd hxm ha
    · rintro (rfl|rfl) <;> assumption
  · refine Or.inr (Or.inr (Or.inr (Or.inr (Or.inr (Or.inl ?_)))))
    apply Finset.ext
    intro x
    simp only [Finset.mem_insert, Finset.mem_singleton]
    constructor
    · intro hxm
      rcases hx x hxm with rfl|rfl|rfl
      · exact Or.inl rfl
      · exact absurd hxm hm
      · exact Or.inr rfl
    · rintro (rfl|rfl) <;> assumption
  · refine Or.inr (Or.inl ?_)
    apply Finset.ext
    intro x
    simp only [Finset.mem_singleton]
    constructor
    · intro hxm
      rcases hx x hxm with rfl|rfl|rfl
      · rfl
      · exact absurd hxm hm
      · exact absurd hxm ha
    · rintro rfl
      exact ht
  · refine Or.inr (Or.inr (Or.inr (Or.inr (Or.inr (Or.inr (Or.inl ?_))))))
    apply Finset.ext
    intro x
    simp only [Finset.mem_insert, Finset.mem_singleton]
    constructor
    · intro hxm
      rcases hx x hxm with rfl|rfl|rfl
      · exact absurd hxm ht
      · exact Or.inl rfl
      · exact Or.inr rfl
    · rintro (rfl|rfl) <;> assumption
  · refine Or.inr (Or.inr (Or.inl ?_))
    apply Finset.ext
    intro x
    simp only [Finset.mem_singleton]
    constructor
    · intro hxm
      rcases hx x hxm with rfl|rfl|rfl
      · exact absurd hxm ht
      · rfl
      · exact absurd hxm ha
    · rintro rfl
      exact hm
  · refine Or.inr (Or.inr (Or.inr (Or.inl ?_)))
    apply Finset.ext
    intro x
    simp only [Finset.mem_singleton]
    constructor
    · intro hxm
      rcases hx x hxm with rfl|rfl|rfl
      · exact absurd hxm ht
      · exact absurd hxm hm
      · rfl
    · rintro rfl
      exact ha
  · refine Or.inl (Finset.eq_empty_iff_forall_not_mem.mpr ?_)
    intro x hxm
    rcases hx x hxm with rfl|rfl|rfl
    · exact ht hxm
    · exact hm hxm
    · exact ha hxm

/-- On any subset of the canonical signals, `DEFAULT_POLICY` is defined and
returns exactly the count-based position of the fixed implementation. -/
theorem default_policy_lookup (S : Finset String) (h : S ⊆ canonicalS) :
    DEFAULT_POLICY S = some ⟨posOfCard S.card, none⟩ := by
  rcases subset_three S h with rfl|rfl|rfl|rfl|rfl|rfl|rfl|rfl <;> decide

/-- One event preserves the coupling between the flexible engine under
`DEFAULT_POLICY` and the fixed count-based engine, and produces identical
output columns (remark excluded). -/
theorem step_couple (s1 s2 : AccState) (e : Event) (hc : Coupled s1 s2)
    (hsub : s1.signals ⊆ canonicalS)
    (hsig : normalize_signal e.signal ∈ canonicalS) :
    ∃ (s1' : AccState) (snap1 : Snapshot),
      stepState DEFAULT_POLICY s1 e = Except.ok (s1', snap1) ∧
      Coupled s1' (stepFixed s2 e).1 ∧
      s1'.signals ⊆ canonicalS ∧
      projCols (s1', snap1) = projCols (stepFixed s2 e) := by
  obtain ⟨u, b, pos, sg, la1⟩ := s1
  obtain ⟨u2, b2, pos2, sg2, la2⟩ := s2
  obtain ⟨hu, hb, hpos, hsg, hlast⟩ := hc
  dsimp only at hu hb hpos hsg hlast hsub
  subst hu
  subst hb
  subst hpos
  subst hsg
  have hsettle : settle pos la1 e.price b = settle pos la2 e.price b := by
    by_cases hL : Leveraged pos
    · rw [hlast hL]
    · have hL1 : pos ≠ "一倍合约" := fun hh => hL (Or.inl hh)
      have hL2 : pos ≠ "两倍合约" := fun hh => hL (Or.inr hh)
      cases la1 <;> cases la2 <;> simp [settle, hL1, hL2]
  have hsub1 : updateSignals sg e.action (normalize_signal e.signal) ⊆ canonicalS := by
    unfold updateSignals
    split_ifs
    · exact Finset.insert_subset_iff.mpr ⟨hsig, hsub⟩
    · exact Finset.Subset.trans (Finset.erase_subset _ _) hsub
    · exact hsub
  have hlook := default_policy_lookup _ hsub1
  have htar : resolveTarget DEFAULT_POLICY ⟨u, b, pos, sg, la1⟩ e =
      posOfCard (updateSignals sg e.action (normalize_signal e.signal)).card := by
    unfold resolveTarget newSignals
    dsimp only
    rw [hlook]
  have hmemT : resolveTarget DEFAULT_POLICY ⟨u, b, pos, sg, la1⟩ e ∈ POSITIONS := by
    rw [htar]
    exact posOfCard_mem _
  refine ⟨_, _, stepState_eq DEFAULT_POLICY ⟨u, b, pos, sg, la1⟩ e hmemT, ?_, ?_, ?_⟩
  · -- coupling of the post-event states
    rw [htar]
    dsimp only
    simp only [stepFixed]
    dsimp only
    by_cases hne : posOfCard (updateSignals sg e.action (normalize_signal e.signal)).card ≠ pos
    · simp only [if_pos hne]
      have hTmem := posOfCard_mem (updateSignals sg e.action (normalize_signal e.signal)).card
      generalize hT : posOfCard (updateSignals sg e.action (normalize_signal e.signal)).card
        = T at hTmem ⊢
      have hTc : T = "空仓" ∨ T = "现货" ∨ T = "一倍合约" ∨ T = "两倍合约" := by
        simpa [POSITIONS] using hTmem
      rcases hTc with rfl|rfl|rfl|rfl
      · exact ⟨by rw [doSwitch, settleBtc, hsettle] <;> rfl,
          by rw [doSwitch, settleBtc, hsettle] <;> rfl,
          rfl, rfl, fun hlev => absurd hlev nlev_flat⟩
      · exact ⟨rfl, by rw [doSwitch, settleBtc, hsettle] <;> rfl, rfl, rfl,
          fun hlev => absurd hlev nlev_spot⟩
      · exact ⟨rfl, by rw [doSwitch, settleBtc, hsettle] <;> rfl, rfl, rfl, fun _ => rfl⟩
      · exact ⟨rfl, by rw [doSwitch, settleBtc, hsettle] <;> rfl, rfl, rfl, fun _ => rfl⟩
    · simp only [if_neg hne]
      refine ⟨rfl, ?_, rfl, rfl, ?_⟩
      · show settleBtc ⟨u, b, pos, sg, la1⟩ e = settle pos la2 e.price b
        rw [settleBtc]
        exact hsettle
      · intro hlev
        rcases hlev with h|h <;> subst h <;> rfl
  · -- the new signal set stays canonical
    split <;> exact hsub1
  · -- identical output columns
    rw [htar]
    dsimp only
    simp only [stepFixed]
    dsimp only
    by_cases hne : posOfCard (updateSignals sg e.action (normalize_signal e.signal)).card ≠ pos
    · simp only [if_pos hne]
      have hTmem := posOfCard_mem (updateSignals sg e.action (normalize_signal e.signal)).card
      generalize hT : posOfCard (updateSignals sg e.action (normalize_signal e.signal)).card
        = T at hTmem ⊢
      have hTc : T = "空仓" ∨ T = "现货" ∨ T = "一倍合约" ∨ T = "两倍合约" := by
        simpa [POSITIONS] using hTmem
      rcases hTc with rfl|rfl|rfl|rfl <;>
        simp only [projCols, doSwitch, settleBtc, hsettle] <;> rfl
    · simp only [if_neg hne]
      simp only [projCols, holdState, settleBtc, hsettle]
      rfl

/-- Runs of the two engines from coupled states on canonical events produce
identical output columns. -/
theorem run_couple (evs : List Event) :
    ∀ s1 s2 : AccState, Coupled s1 s2 → s1.signals ⊆ canonicalS →
      (∀ e ∈ evs, normalize_signal e.signal ∈ canonicalS) →
      ∃ l1, runAux DEFAULT_POLICY s1 evs = Except.ok l1 ∧
        List.map projCols l1 = List.map projCols (runFixedAux s2 evs) := by
  induction evs with
  | nil =>
    intro s1 s2 _ _ _
    exact ⟨[], rfl, rfl⟩
  | cons e es ih =>
    intro s1 s2 hc hsub hsig
    obtain ⟨s1', snap1, hstep, hc', hsub', hproj⟩ :=
      step_couple s1 s2 e hc hsub (hsig e (List.mem_cons_self e es))
    obtain ⟨l1, hrun, hmap⟩ := ih s1' (stepFixed s2 e).1 hc' hsub'
      (fun e' he' => hsig e' (List.mem_cons_of_mem e he'))
    refine ⟨(s1', snap1) :: l1, ?_, ?_⟩
    · simp only [runAux, hstep, hrun]
    · simp only [runFixedAux, List.map]
      rw [hproj, hmap]

/-! Claim theorems -/

/-- C1: step 1 of per-event processing multiplies the held quantity by exactly
`1 + k·(price − last_reference_price)/last_reference_price` with `k = 1` for a
1x-leveraged position and `k = 2` for a 2x-leveraged one, and on scenario B
(policy {X → 1x-leveraged}, events enter X @100 then no-action @110, capital
1000) the run yields quantity 10 and value 1000 after event 1, and quantity 11
and value 1210 after event 2. -/
theorem c1_mark_to_market :
    (∀ b lp p : ℚ, settle "一倍合约" (some lp) p b = b * (1 + 1 * ((p - lp) / lp))) ∧
    (∀ b lp p : ℚ, settle "两倍合约" (some lp) p b = b * (1 + 2 * ((p - lp) / lp))) ∧
    (Except.toOption (runAux polLev1 (initState 1000) evScenB)).map
        (List.map fun x : AccState × Snapshot => (x.2.btc, x.2.total)) =
      some [(10, 1000), (11, 1210)] := by
  refine ⟨fun b lp p => ?_, fun b lp p => ?_, ?_⟩
  · have h : settle "一倍合约" (some lp) p b = b + (p - lp) / lp * b := rfl
    rw [h]
    ring
  · have h : settle "两倍合约" (some lp) p b = b + 2 * (p - lp) / lp * b := rfl
    rw [h]
    ring
  · norm_num +decide [runAux, stepState, resolveTarget, doSwitch, holdState, settleBtc,
      preLast, newSignals, settle, updateSignals, liquidate, reopen, totalAssets,
      normalize_signal, strContains, listContains, pyStrip, initState, polLev1, evScenB,
      POSITIONS]

/-- C2 counterexample: with policy {X → 2x-leveraged, ∅ → flat}, capital 1000
and events enter X @100 then exit X @40 (all prices positive), the 2x
settlement at event 2 leaves quantity −2; at the switch to flat at that event
the value read immediately before the switch is −80 while the value read
immediately after is 0 — the switch changes the read total asset value. -/
theorem c2_counterexample :
    (Except.toOption (runAux polLev2Flat (initState 1000) evCrashExit)).map
        (List.map fun x : AccState × Snapshot =>
          ((x.1.usd, x.1.btc, x.1.position, x.1.last), (x.2.total, x.2.remark))) =
      some [((0, 10, "两倍合约", some 100), (1000, "换仓→两倍合约")),
            ((-80, 0, "空仓", some 40), (0, "换仓→空仓"))] ∧
    settleBtc ⟨0, 10, "两倍合约", {"X"}, some 100⟩ ⟨40, "出场", "X"⟩ = -2 ∧
    totalAssets 0 (-2) 40 = -80 ∧
    totalAssets (-80) 0 40 = 0 ∧
    ((-80 : ℚ) ≠ (0 : ℚ)) := by
  refine ⟨?_, ?_, ?_, ?_, by norm_num⟩
  · norm_num +decide [runAux, stepState, resolveTarget, doSwitch, holdState, settleBtc,
      preLast, newSignals, settle, updateSignals, liquidate, reopen, totalAssets,
      normalize_signal, strContains, listContains, pyStrip, initState, polLev2Flat,
      evCrashExit, POSITIONS, Except.toOption, List.rdropWhile, List.dropWhile]
  · norm_num +decide [settleBtc, settle]
  · norm_num [totalAssets]
  · norm_num [totalAssets]

/-- C2 amended: a position switch at a positive price is value-neutral
whenever the pre-switch account state is well-formed — a valid position,
all-cash with a non-negative balance while flat, all-asset with a
non-negative quantity otherwise (which is the case in every run whose 2x
settlements never lose 100% or more, see the C5 invariant). -/
theorem c2_switch_conserves_value :
    ∀ (position target : String) (usd btc price : ℚ) (last : Option ℚ),
      0 < price →
      position ∈ POSITIONS →
      (position = "空仓" → 0 ≤ usd ∧ btc = 0) →
      (position ≠ "空仓" → usd = 0 ∧ 0 ≤ btc) →
      target ≠ position →
      totalAssets
          (reopen target (liquidate position usd btc price).1
            (liquidate position usd btc price).2 price last).1
          (reopen target (liquidate position usd btc price).1
            (liquidate position usd btc price).2 price last).2.1 price =
        totalAssets usd btc price := by
  intro position target usd btc price last hp hmem h1 h2 hne
  have hposes : position = "空仓" ∨ position = "现货" ∨
      position = "一倍合约" ∨ position = "两倍合约" := by
    simpa [POSITIONS] using hmem
  rcases hposes with rfl|rfl|rfl|rfl
  · obtain ⟨hu, hb⟩ := h1 rfl
    subst hb
    have hl : liquidate "空仓" usd 0 price = (usd, 0) := by simp +decide [liquidate]
    rw [hl]
    exact total_after_reopen target usd price last hp hu
  · obtain ⟨hu, hb⟩ := h2 (by decide)
    subst hu
    have hl : liquidate "现货" 0 btc price = (btc * price, 0) := by
      simp +decide [liquidate]
    rw [hl]
    rw [total_after_reopen target (btc * price) price last hp (mul_nonneg hb hp.le)]
    exact totalAssets_held btc price hb hp
  · obtain ⟨hu, hb⟩ := h2 (by decide)
    subst hu
    have hl : liquidate "一倍合约" 0 btc price = (btc * price, 0) := by
      simp +decide [liquidate]
    rw [hl]
    rw [total_after_reopen target (btc * price) price last hp (mul_nonneg hb hp.le)]
    exact totalAssets_held btc price hb hp
  · obtain ⟨hu, hb⟩ := h2 (by decide)
    subst hu
    have hl : liquidate "两倍合约" 0 btc price = (btc * price, 0) := by
      simp +decide [liquidate]
    rw [hl]
    rw [total_after_reopen target (btc * price) price last hp (mul_nonneg hb hp.le)]
    exact totalAssets_held btc price hb hp

/-- C2 witness: liquidating a spot holding of 10 units into flat at price 100
keeps the read value (1000) unchanged. -/
theorem c2_witness :
    totalAssets
        (reopen "空仓" (liquidate "现货" 0 10 100).1 (liquidate "现货" 0 10 100).2 100 none).1
        (reopen "空仓" (liquidate "现货" 0 10 100).1 (liquidate "现货" 0 10 100).2 100 none).2.1
        100 =
      totalAssets 0 10 100 :=
  c2_switch_conserves_value "现货" "空仓" 0 10 100 none (by decide) (by decide)
    (by decide) (by decide) (by decide)

/-- C3: at an event whose resulting active-signal set is absent from the
policy, the engine succeeds, the position is unchanged, the USD balance is
untouched and the remark is empty; concretely (scenario C) with policy
{X → spot} lacking an entry for {X, Y}, entering Y while X is active and the
position is spot keeps the spot position with an empty remark. -/
theorem c3_unmapped_continues :
    (∀ (pol : Policy) (s : AccState) (e : Event),
      pol (newSignals s e) = none →
      s.position ∈ POSITIONS →
      ∃ s' snap, stepState pol s e = Except.ok (s', snap) ∧
        s'.position = s.position ∧ s'.usd = s.usd ∧ snap.remark = "") ∧
    (Except.toOption (runAux polSpot (initState 1000)
        [⟨100, "进场", "X"⟩, ⟨110, "进场", "Y"⟩])).map
        (List.map fun x : AccState × Snapshot => (x.1.position, x.2.remark)) =
      some [("现货", "换仓→现货"), ("现货", "")] := by
  constructor
  · intro pol s e h hmem
    have htar : resolveTarget pol s e = s.position := by
      unfold resolveTarget
      rw [h]
    have hmem' : resolveTarget pol s e ∈ POSITIONS := htar ▸ hmem
    refine ⟨_, _, stepState_eq pol s e hmem', ?_, ?_, ?_⟩ <;>
      simp [htar, holdState]
  · norm_num +decide [runAux, stepState, resolveTarget, doSwitch, holdState, settleBtc,
      preLast, newSignals, settle, updateSignals, liquidate, reopen, totalAssets,
      normalize_signal, strContains, listContains, pyStrip, initState, polSpot, POSITIONS]

/-- C3 witness: scenario C instance — spot position holding {X}, policy
{X → spot} has no entry for {X, Y}, entering Y at 110 keeps spot, keeps the
USD balance 0 and emits no remark. -/
theorem c3_witness :
    ∃ s' snap,
      stepState polSpot ⟨0, 10, "现货", {"X"}, none⟩ ⟨110, "进场", "Y"⟩ =
        Except.ok (s', snap) ∧
      s'.position = "现货" ∧ s'.usd = 0 ∧ snap.remark = "" :=
  c3_unmapped_continues.1 polSpot ⟨0, 10, "现货", {"X"}, none⟩ ⟨110, "进场", "Y"⟩
    (by decide) (by decide)

/-- C4 counterexample: a policy with an invalid position value whose key is
never looked up does not fail at all — `run_backtest` succeeds on an event
sequence, so it does not fail before processing any event. -/
theorem c4_counterexample :
    polInvalid {"X"} = some ⟨"三倍合约", none⟩ ∧
    "三倍合约" ∉ POSITIONS ∧
    (runAux polInvalid (initState 1000) evEnterY).isOk = true := by
  refine ⟨by decide, by decide, by decide⟩

/-- C4 amended: validation of the configured position is lazy and per event —
the configuration error is raised exactly at an event whose resulved
active-signal set maps to an invalid position value. -/
theorem c4_lazy_validation :
    ∀ (pol : Policy) (s : AccState) (e : Event) (cfg : Cfg),
      pol (newSignals s e) = some cfg →
      cfg.position ∉ POSITIONS →
      stepState pol s e = Except.error ("未知仓位类型: " ++ cfg.position) := by
  intro pol s e cfg h hbad
  have htar : resolveTarget pol s e = cfg.position := by
    unfold resolveTarget
    rw [h]
  simp only [stepState, htar]
  rw [if_pos hbad]

/-- C4 witness: the invalid entry of `polInvalid` is looked up at the very
first event, and the step fails with the configuration error. -/
theorem c4_witness :
    stepState polInvalid (initState 1000) ⟨100, "进场", "X"⟩ =
      Except.error ("未知仓位类型: " ++ "三倍合约") :=
  c4_lazy_validation polInvalid (initState 1000) ⟨100, "进场", "X"⟩ ⟨"三倍合约", none⟩
    (by decide) (by decide)

/-- C9 counterexample: with policy {X → 1x-leveraged, ∅ → spot} and events
enter X @100 then exit X @110, the position after event 2 is spot yet
`last_price` is still `some 110` at snapshot emission — the reference price is
left set on the very event where a leveraged position is switched to spot. -/
theorem c9_counterexample :
    (Except.toOption (runAux polLev1Spot (initState 1000) evExitUp)).map
        (List.map fun x : AccState × Snapshot => (x.1.position, x.1.last)) =
      some [("一倍合约", some 100), ("现货", some 110)] := by
  norm_num +decide [runAux, stepState, resolveTarget, doSwitch, holdState, settleBtc,
    preLast, newSignals, settle, updateSignals, liquidate, reopen, totalAssets,
    normalize_signal, strContains, listContains, pyStrip, initState, polLev1Spot,
    evExitUp, POSITIONS]

/-- C9 amended: at snapshot emission `last_price` is set iff the position was
leveraged on entry to the event or is leveraged after the event; in
particular it can survive, for one event, a switch away from a leveraged
position. -/
theorem c9_last_iff_leveraged_around :
    ∀ (pol : Policy) (s : AccState) (e : Event) (s' : AccState) (snap : Snapshot),
      stepState pol s e = Except.ok (s', snap) →
      ((∃ lp, s'.last = some lp) ↔ (Leveraged s.position ∨ Leveraged s'.position)) := by
  intro pol s e s' snap h
  obtain ⟨hmem, hs'⟩ := stepState_ok_elim pol s e s' snap h
  by_cases hne : resolveTarget pol s e ≠ s.position
  · rw [if_pos hne] at hs'
    subst hs'
    by_cases h1 : resolveTarget pol s e = "现货"
    · simp +decide [doSwitch, reopen, h1, Leveraged]
      by_cases hL : s.position = "一倍合约" ∨ s.position = "两倍合约" <;>
        simp [preLast, hL, Leveraged]
    · by_cases h2 : resolveTarget pol s e = "一倍合约" ∨ resolveTarget pol s e = "两倍合约"
      · simp [doSwitch, reopen, h1, h2, Leveraged]
      · simp [doSwitch, reopen, h1, h2, Leveraged]
        by_cases hL : s.position = "一倍合约" ∨ s.position = "两倍合约" <;>
          simp [preLast, hL]
  · rw [if_neg hne] at hs'
    subst hs'
    simp [holdState, Leveraged]
    by_cases hL : s.position = "一倍合约" ∨ s.position = "两倍合约" <;>
      simp [preLast, hL, Leveraged]

/-- C9 witness: a no-action event on a flat account steps successfully, and
the iff holds there (reference price unset, no leverage on either side). -/
theorem c9_witness :
    (∃ lp, (⟨1000, 0, "空仓", ∅, none⟩ : AccState).last = some lp) ↔
      (Leveraged (initState 1000).position ∨
        Leveraged (⟨1000, 0, "空仓", ∅, none⟩ : AccState).position) :=
  c9_last_iff_leveraged_around polLev1 (initState 1000) ⟨100, "无", ""⟩
    ⟨1000, 0, "空仓", ∅, none⟩ ⟨"空仓", 0, 1000, "", ""⟩
    (by
      simp +decide [stepState, resolveTarget, newSignals, updateSignals, holdState,
        settleBtc, settle, preLast, totalAssets, initState, polLev1, normalize_signal,
        strContains, listContains, pyStrip, POSITIONS])

/-- C5 counterexample: with policy {X → 2x-leveraged}, capital 1000 and events
enter X @100 then a no-action row @40 (all prices strictly positive), the 2x
settlement drives the held quantity to −2 after event 2 — `asset_quantity ≥ 0`
fails. -/
theorem c5_counterexample :
    (Except.toOption (runAux polLev2 (initState 1000) evCrash)).map
        (List.map fun x : AccState × Snapshot => (x.1.usd, x.1.btc, x.1.position)) =
      some [(0, 10, "两倍合约"), (0, -2, "两倍合约")] ∧
    ¬ (0 : ℚ) ≤ (-2 : ℚ) := by
  constructor
  · norm_num +decide [runAux, stepState, resolveTarget, doSwitch, holdState, settleBtc,
      preLast, newSignals, settle, updateSignals, liquidate, reopen, totalAssets,
      normalize_signal, strContains, listContains, pyStrip, initState, polLev2, evCrash,
      POSITIONS, Except.toOption, List.rdropWhile, List.dropWhile]
  · norm_num

/-- C5 amended: on any run with positive initial capital whose price path is
positive and never lets a 2x-leveraged mark-to-market move reach a 100% loss
(price above half the reference price, `pricesOkB`), every post-event account
state has `asset_quantity ≥ 0`, `usd_balance ≥ 0`, and exactly one of the two
non-zero. -/
theorem c5_invariants :
    ∀ (pol : Policy) (cap : ℚ) (evs : List Event),
      0 < cap →
      pricesOkB pol (initState cap) evs = true →
      ∀ l, runAux pol (initState cap) evs = Except.ok l →
        ∀ x ∈ l, 0 ≤ x.1.btc ∧ 0 ≤ x.1.usd ∧
          ((0 < x.1.usd ∧ x.1.btc = 0) ∨ (0 < x.1.btc ∧ x.1.usd = 0)) := by
  intro pol cap evs hcap hok l hl x hx
  have hInv0 : Inv (initState cap) :=
    ⟨mem_flat, fun _ => ⟨hcap, rfl⟩, fun hn => absurd rfl hn,
      fun hlev => absurd hlev nlev_flat⟩
  have hInv : Inv x.1 := inv_run pol evs (initState cap) hInv0 hok l hl x hx
  obtain ⟨hmem, hval1, hval2, -⟩ := hInv
  by_cases h0 : x.1.position = "空仓"
  · obtain ⟨hu, hb⟩ := hval1 h0
    exact ⟨le_of_eq hb.symm, hu.le, Or.inl ⟨hu, hb⟩⟩
  · obtain ⟨hb, hu⟩ := hval2 h0
    exact ⟨hb.le, le_of_eq hu.symm, Or.inr ⟨hb, hu⟩⟩

/-- C5 witness: a one-event run (enter Y @100 under {X → spot}, capital 1000)
satisfies the invariant after its event. -/
theorem c5_witness :
    0 ≤ ((⟨1000, 0, "空仓", {"Y"}, none⟩ : AccState),
        (⟨"空仓", 0, 1000, "Y", ""⟩ : Snapshot)).1.btc ∧
    0 ≤ ((⟨1000, 0, "空仓", {"Y"}, none⟩ : AccState),
        (⟨"空仓", 0, 1000, "Y", ""⟩ : Snapshot)).1.usd ∧
    ((0 < ((⟨1000, 0, "空仓", {"Y"}, none⟩ : AccState),
        (⟨"空仓", 0, 1000, "Y", ""⟩ : Snapshot)).1.usd ∧
      ((⟨1000, 0, "空仓", {"Y"}, none⟩ : AccState),
        (⟨"空仓", 0, 1000, "Y", ""⟩ : Snapshot)).1.btc = 0) ∨
     (0 < ((⟨1000, 0, "空仓", {"Y"}, none⟩ : AccState),
        (⟨"空仓", 0, 1000, "Y", ""⟩ : Snapshot)).1.btc ∧
      ((⟨1000, 0, "空仓", {"Y"}, none⟩ : AccState),
        (⟨"空仓", 0, 1000, "Y", ""⟩ : Snapshot)).1.usd = 0)) :=
  c5_invariants polSpot 1000 evEnterY (by decide) (by decide)
    [((⟨1000, 0, "空仓", {"Y"}, none⟩ : AccState),
      (⟨"空仓", 0, 1000, "Y", ""⟩ : Snapshot))]
    (by
      simp +decide [runAux, stepState, resolveTarget, doSwitch, holdState, settleBtc,
        preLast, newSignals, settle, updateSignals, liquidate, reopen, totalAssets,
        normalize_signal, strContains, listContains, pyStrip, initState, polSpot,
        evEnterY, POSITIONS, List.rdropWhile, List.dropWhile])
    ((⟨1000, 0, "空仓", {"Y"}, none⟩ : AccState),
      (⟨"空仓", 0, 1000, "Y", ""⟩ : Snapshot))
    (List.mem_singleton.mpr rfl)

/-- C10: the engine never reads the `ratio` field — two policies with the same
keys and the same position values, but arbitrary ratio values, produce the
same run output on any events and any start state. -/
theorem c10_ratio_never_read :
    ∀ pol1 pol2 : Policy,
      (∀ k, Option.map Cfg.position (pol1 k) = Option.map Cfg.position (pol2 k)) →
      ∀ (s : AccState) (evs : List Event),
        runAux pol1 s evs = runAux pol2 s evs := by
  intro pol1 pol2 h
  have hstep : ∀ s e, stepState pol1 s e = stepState pol2 s e := by
    intro s e
    have htar : resolveTarget pol1 s e = resolveTarget pol2 s e := by
      unfold resolveTarget
      have hk := h (newSignals s e)
      cases h1 : pol1 (newSignals s e) <;> cases h2 : pol2 (newSignals s e) <;>
        rw [h1, h2] at hk <;> simp_all
    simp only [stepState, htar]
  intro s evs
  induction evs generalizing s with
  | nil => rfl
  | cons e es ih =>
    simp only [runAux, hstep s e]
    cases stepState pol2 s e with
    | error msg => rfl
    | ok r =>
      obtain ⟨s1, snap1⟩ := r
      dsimp only
      rw [ih s1]

/-- C10 witness: the concrete policies {X → spot, ratio 1} and
{X → spot, ratio 1/2} give identical runs on a one-event sequence. -/
theorem c10_witness :
    runAux polRatioHigh (initState 1000) evEnterY =
      runAux polRatioLow (initState 1000) evEnterY :=
  c10_ratio_never_read polRatioHigh polRatioLow
    (by
      intro k
      simp only [polRatioHigh, polRatioLow]
      split <;> rfl)
    (initState 1000) evEnterY

/-- C7: `normalize_signal` checks the canonical identifiers in the priority
order tempeture_index, 120_ma, ADX, returning the first one occurring as a
substring of the raw label, and the trimmed raw label when none occurs; it is
idempotent on every string. -/
theorem c7_normalize_signal :
    (∀ s : String, normalize_signal (normalize_signal s) = normalize_signal s) ∧
    (∀ s : String, (∃ u v, u ++ ("tempeture_index" : String).data ++ v = s.data) →
      normalize_signal s = "tempeture_index") ∧
    (∀ s : String, ¬ (∃ u v, u ++ ("tempeture_index" : String).data ++ v = s.data) →
      (∃ u v, u ++ ("120_ma" : String).data ++ v = s.data) →
      normalize_signal s = "120_ma") ∧
    (∀ s : String, ¬ (∃ u v, u ++ ("tempeture_index" : String).data ++ v = s.data) →
      ¬ (∃ u v, u ++ ("120_ma" : String).data ++ v = s.data) →
      (∃ u v, u ++ ("ADX" : String).data ++ v = s.data) →
      normalize_signal s = "ADX") ∧
    (∀ s : String, ¬ (∃ u v, u ++ ("tempeture_index" : String).data ++ v = s.data) →
      ¬ (∃ u v, u ++ ("120_ma" : String).data ++ v = s.data) →
      ¬ (∃ u v, u ++ ("ADX" : String).data ++ v = s.data) →
      normalize_signal s = pyStrip s) := by
  refine ⟨?_, ?_, ?_, ?_, ?_⟩
  · intro s
    by_cases h1 : strContains s "tempeture_index" = true
    · have e1 : normalize_signal s = "tempeture_index" := by
        simp [normalize_signal, h1]
      rw [e1]
      decide
    · have h1f : strContains s "tempeture_index" = false := by
        revert h1
        cases strContains s "tempeture_index" <;> simp
      by_cases h2 : strContains s "120_ma" = true
      · have e1 : normalize_signal s = "120_ma" := by
          simp [normalize_signal, h1f, h2]
        rw [e1]
        decide
      · have h2f : strContains s "120_ma" = false := by
          revert h2
          cases strContains s "120_ma" <;> simp
        by_cases h3 : strContains s "ADX" = true
        · have e1 : normalize_signal s = "ADX" := by
            simp [normalize_signal, h1f, h2f, h3]
          rw [e1]
          decide
        · have h3f : strContains s "ADX" = false := by
            revert h3
            cases strContains s "ADX" <;> simp
          have e1 : normalize_signal s = pyStrip s := by
            simp [normalize_signal, h1f, h2f, h3f]
          rw [e1]
          have g1 := strContains_pyStrip s "tempeture_index" h1f
          have g2 := strContains_pyStrip s "120_ma" h2f
          have g3 := strContains_pyStrip s "ADX" h3f
          simp [normalize_signal, g1, g2, g3, pyStrip_idem]
  · intro s h
    have hb : strContains s "tempeture_index" = true := (listContains_iff _ _).mpr h
    simp [normalize_signal, hb]
  · intro s h1 h2
    have hb1 : strContains s "tempeture_index" = false :=
      (strContains_eq_false_iff _ _).mpr h1
    have hb2 : strContains s "120_ma" = true := (listContains_iff _ _).mpr h2
    simp [normalize_signal, hb1, hb2]
  · intro s h1 h2 h3
    have hb1 : strContains s "tempeture_index" = false :=
      (strContains_eq_false_iff _ _).mpr h1
    have hb2 : strContains s "120_ma" = false :=
      (strContains_eq_false_iff _ _).mpr h2
    have hb3 : strContains s "ADX" = true := (listContains_iff _ _).mpr h3
    simp [normalize_signal, hb1, hb2, hb3]
  · intro s h1 h2 h3
    have hb1 : strContains s "tempeture_index" = false :=
      (strContains_eq_false_iff _ _).mpr h1
    have hb2 : strContains s "120_ma" = false :=
      (strContains_eq_false_iff _ _).mpr h2
    have hb3 : strContains s "ADX" = false :=
      (strContains_eq_false_iff _ _).mpr h3
    simp [normalize_signal, hb1, hb2, hb3]

/-- C8 counterexample: over the three-event price path 100, 110, 121 with no
switches after entry, the 1x run's quantities are 10, 11, 12.1 (fractional
change 0.21) while the 2x run's are 10, 12, 14.4 (fractional change 0.44) —
not double 0.21 = 0.42.  Compounding breaks the doubling over multi-step
paths. -/
theorem c8_counterexample :
    (Except.toOption (runAux polLev1 (initState 1000) evThree)).map
        (List.map fun x : AccState × Snapshot => x.2.btc) =
      some [10, 11, 121/10] ∧
    (Except.toOption (runAux polLev2 (initState 1000) evThree)).map
        (List.map fun x : AccState × Snapshot => x.2.btc) =
      some [10, 12, 72/5] ∧
    ¬ ((72/5 - 10) / 10 : ℚ) = 2 * ((121/10 - 10) / 10) := by
  refine ⟨?_, ?_, by norm_num⟩ <;>
    norm_num +decide [runAux, stepState, resolveTarget, doSwitch, holdState, settleBtc,
      preLast, newSignals, settle, updateSignals, liquidate, reopen, totalAssets,
      normalize_signal, strContains, listContains, pyStrip, initState, polLev1, polLev2,
      evThree, POSITIONS, Except.toOption, List.rdropWhile, List.dropWhile]

/-- C8 amended: over a single mark-to-market step — the two-event path enter X
at P0 then no action at P1 — the 2x run's fractional quantity change is
exactly double the 1x run's, for every positive P0, P1 and capital. -/
theorem c8_single_step_doubling :
    ∀ p0 p1 c : ℚ, 0 < p0 → 0 < p1 → 0 < c →
      (Except.toOption (runAux polLev1 (initState c)
          [⟨p0, "进场", "X"⟩, ⟨p1, "无", ""⟩])).map
          (List.map fun x : AccState × Snapshot => x.2.btc) =
        some [c / p0, c / p0 * (1 + 1 * ((p1 - p0) / p0))] ∧
      (Except.toOption (runAux polLev2 (initState c)
          [⟨p0, "进场", "X"⟩, ⟨p1, "无", ""⟩])).map
          (List.map fun x : AccState × Snapshot => x.2.btc) =
        some [c / p0, c / p0 * (1 + 2 * ((p1 - p0) / p0))] ∧
      (c / p0 * (1 + 2 * ((p1 - p0) / p0)) - c / p0) / (c / p0) =
        2 * ((c / p0 * (1 + 1 * ((p1 - p0) / p0)) - c / p0) / (c / p0)) := by
  intro p0 p1 c h0 h1 hc
  have hq : c / p0 ≠ 0 := div_ne_zero hc.ne' h0.ne'
  refine ⟨?_, ?_, ?_⟩
  · norm_num +decide [runAux, stepState, resolveTarget, doSwitch, holdState, settleBtc,
      preLast, newSignals, settle, updateSignals, liquidate, reopen, totalAssets,
      normalize_signal, strContains, listContains, pyStrip, initState, polLev1,
      POSITIONS, Except.toOption, List.rdropWhile, List.dropWhile]
    ring
  · norm_num +decide [runAux, stepState, resolveTarget, doSwitch, holdState, settleBtc,
      preLast, newSignals, settle, updateSignals, liquidate, reopen, totalAssets,
      normalize_signal, strContains, listContains, pyStrip, initState, polLev2,
      POSITIONS, Except.toOption, List.rdropWhile, List.dropWhile]
    ring
  · field_simp
    ring

/-- C8 witness: the single-step doubling at P0 = 100, P1 = 110, capital
1000. -/
theorem c8_witness :
    (Except.toOption (runAux polLev1 (initState 1000)
        [⟨100, "进场", "X"⟩, ⟨110, "无", ""⟩])).map
        (List.map fun x : AccState × Snapshot => x.2.btc) =
      some [1000 / 100, 1000 / 100 * (1 + 1 * ((110 - 100) / 100))] ∧
    (Except.toOption (runAux polLev2 (initState 1000)
        [⟨100, "进场", "X"⟩, ⟨110, "无", ""⟩])).map
        (List.map fun x : AccState × Snapshot => x.2.btc) =
      some [1000 / 100, 1000 / 100 * (1 + 2 * ((110 - 100) / 100))] ∧
    ((1000 : ℚ) / 100 * (1 + 2 * ((110 - 100) / 100)) - 1000 / 100) / (1000 / 100) =
      2 * ((1000 / 100 * (1 + 1 * ((110 - 100) / 100)) - 1000 / 100) / (1000 / 100)) :=
  c8_single_step_doubling 100 110 1000 (by decide) (by decide) (by decide)

/-- C6: on every event sequence with strictly positive prices whose raw
signals all normalize to one of the three canonical signals, the fixed-policy
implementation (`btc_trading_with_backtest.py`, count-based targets, capital
1000) and `run_backtest` with `DEFAULT_POLICY` and capital 1000 produce
identical per-event position type, asset quantity, total asset value and
active-signal columns (remark excluded). -/
theorem c6_fixed_equals_flexible :
    ∀ evs : List Event,
      (∀ e ∈ evs, 0 < e.price ∧ normalize_signal e.signal ∈ canonicalS) →
      ∃ l1, runAux DEFAULT_POLICY (initState 1000) evs = Except.ok l1 ∧
        List.map projCols l1 = List.map projCols (runFixedAux (initState 1000) evs) := by
  intro evs h
  exact run_couple evs (initState 1000) (initState 1000)
    ⟨rfl, rfl, rfl, rfl, fun hlev => absurd hlev nlev_flat⟩
    (Finset.empty_subset _)
    (fun e he => (h e he).2)

/-- C6 witness: a concrete canonical event gives identical columns in the two
implementations. -/
theorem c6_witness :
    ∃ l1, runAux DEFAULT_POLICY (initState 1000)
        [⟨100, "进场", "tempeture_index rise"⟩] = Except.ok l1 ∧
      List.map projCols l1 =
        List.map projCols (runFixedAux (initState 1000)
          [⟨100, "进场", "tempeture_index rise"⟩]) :=
  c6_fixed_equals_flexible [⟨100, "进场", "tempeture_index rise"⟩] (by decide)

/-- C7 witness: a label containing `tempeture_index` as a substring normalizes
to exactly that identifier. -/
theorem c7_witness :
    normalize_signal "xx tempeture_index yy" = "tempeture_index" :=
  c7_normalize_signal.2.1 "xx tempeture_index yy"
    ⟨("xx " : String).data, (" yy" : String).data, by decide⟩

end Backtest
